import Mathlib

/-!
Verification development for the secret-leak detector of the pinto-bean
repository (scripts/python/validate_secrets.py and
scripts/python/validator_core.py).

The Python sources are shallowly embedded below.  Text is modelled as
`List Char`, repository-relative paths as `String` (forward slashes, as the
source normalises them), file-system and git effects as explicit inputs,
and the `float` entropy value as a real number.  The comparison
`ent >= ENTROPY_THRESHOLD` is the single non-executable spot of the source
(a real-number comparison); the scanning pipeline therefore takes the
entropy gate as an explicit boolean parameter `entGate`, and the theorems
relate that gate to the real-valued `calc_entropy` by hypothesis.
-/

namespace SecretValidator

/-! ## Severity order (LEVEL_ORDER in validate_secrets.py) -/

/-- `LEVEL_ORDER = {"CRITICAL": 4, "HIGH": 3, "MEDIUM": 2, "LOW": 1}`,
as an optional lookup like Python `dict.get`. -/
def LEVEL_ORDER (s : String) : Option Nat :=
  if s = "CRITICAL" then some 4
  else if s = "HIGH" then some 3
  else if s = "MEDIUM" then some 2
  else if s = "LOW" then some 1
  else none

/-- `LEVEL_ORDER.get(sev, 0)` as used in the verdict block. -/
def levelRank0 (s : String) : Nat := (LEVEL_ORDER s).getD 0

/-- `LEVEL_ORDER.get(FAIL_LEVEL, 3)` as used in the verdict block. -/
def failThreshold (failLevel : String) : Nat := (LEVEL_ORDER failLevel).getD 3

/-! ## Entropy estimator (calc_entropy, identical in both source files) -/

/-- `calc_entropy(s)`: Shannon entropy in bits per character of the
character-frequency distribution of `s`, `0.0` for the empty string.
Mirrors
`-sum((cnt/n) * math.log2(cnt/n) for cnt in Counter(s).values())`;
the `Counter` values are the multiplicities of the distinct characters,
i.e. `s.count c` for `c` in `s.toFinset`. -/
noncomputable def calc_entropy (s : List Char) : ℝ :=
  if s = [] then 0
  else
    -∑ c ∈ s.toFinset,
      ((s.count c : ℝ) / (s.length : ℝ)) *
        Real.logb 2 ((s.count c : ℝ) / (s.length : ℝ))

/-! ## Token extractor (secret_like = `[A-Za-z0-9+/=_-]{20,}`) -/

/-- Character class `[A-Za-z0-9+/=_-]` of the generic secret regex. -/
def isSecretChar (c : Char) : Bool :=
  c.isAlphanum || c == '+' || c == '/' || c == '=' || c == '_' || c == '-'

/-- Splits text into the maximal runs of `isSecretChar` characters
(the accumulator holds the current run, reversed). -/
def runsAux : List Char → List Char → List (List Char)
  | [], acc => if acc.isEmpty then [] else [acc.reverse]
  | c :: cs, acc =>
    if isSecretChar c then runsAux cs (c :: acc)
    else if acc.isEmpty then runsAux cs []
    else acc.reverse :: runsAux cs []

/-- All maximal runs of secret-charset characters in `text`. -/
def charRuns (text : List Char) : List (List Char) := runsAux text []

/-- `secret_like.findall(text)`: greedy, non-overlapping matching of
`[A-Za-z0-9+/=_-]{20,}` returns exactly the maximal secret-charset runs
of length at least 20, in order. -/
def findSecretTokens (text : List Char) : List (List Char) :=
  (charRuns text).filter (fun r => 20 ≤ r.length)

/-! ## Suppression policy -/

/-- Full match of `<[^>]+>`: angle-bracket-delimited placeholder. -/
def anglePlaceholder (t : List Char) : Bool :=
  match t with
  | '<' :: rest =>
    rest.getLast? == some '>' && !rest.dropLast.isEmpty &&
      rest.dropLast.all (fun c => !(c == '>'))
  | _ => false

/-- The words of `^(CHANGE(ME)?|TODO|EXAMPLE|SAMPLE|DUMMY|PLACEHOLDER)$`. -/
def placeholderWords : List (List Char) :=
  [String.toList "CHANGE", String.toList "CHANGEME", String.toList "TODO",
   String.toList "EXAMPLE", String.toList "SAMPLE", String.toList "DUMMY",
   String.toList "PLACEHOLDER"]

/-- Case-insensitive full match of the placeholder word alternation. -/
def wordPlaceholder (t : List Char) : Bool :=
  placeholderWords.contains (t.map Char.toUpper)

/-- `_is_placeholder(token)`: any of PLACEHOLDER_PATTERNS fullmatches. -/
def is_placeholder (t : List Char) : Bool :=
  anglePlaceholder t || wordPlaceholder t

/-- Body of `ADR_TOKEN_RE = ^[0-9]{8}-[a-z0-9][a-z0-9-]{10,}$` checked on an
already-lowercased token. -/
def adrCheck (l : List Char) : Bool :=
  (l.take 8).length == 8 && (l.take 8).all Char.isDigit &&
    (match l.drop 8 with
     | '-' :: c :: tail =>
       (c.isLower || c.isDigit) && 10 ≤ tail.length &&
         tail.all (fun x => x.isLower || x.isDigit || x == '-')
     | _ => false)

/-- `ADR_TOKEN_RE.match(match.lower())` (anchored both ends). -/
def is_adr_token (t : List Char) : Bool := adrCheck (t.map Char.toLower)

/-- `path_fragment.search(match)` with `path_fragment = [/\\]`. -/
def pathFragment (t : List Char) : Bool :=
  t.any (fun c => c == '/' || c == '\\')

/-- `match.startswith(p)` on character lists. -/
def startsWithStr (p : String) (t : List Char) : Bool :=
  p.toList.isPrefixOf t

/-- The tool/function-name exemptions
`match.startswith(("BulkApply", "ApplySecrets", "GetTfc", "QueueTfc", "SetTfc"))`. -/
def toolNameStart (t : List Char) : Bool :=
  startsWithStr "BulkApply" t || startsWithStr "ApplySecrets" t ||
    startsWithStr "GetTfc" t || startsWithStr "QueueTfc" t ||
    startsWithStr "SetTfc" t

/-- `rel.startswith("infra/terraform/secrets/") or
rel.startswith("infra/terraform/github/secrets/")`. -/
def inSecretContainer (rel : String) : Bool :=
  startsWithStr "infra/terraform/secrets/" rel.toList ||
    startsWithStr "infra/terraform/github/secrets/" rel.toList

/-- The suppression conditions of the entropy loop that depend only on the
match itself: placeholder, dated ADR slug, path fragment, and the
`VALIDATOR_` / `age1` / tool-name starts. -/
def suppressedMatch (m : List Char) : Bool :=
  is_placeholder m || is_adr_token m || pathFragment m ||
    startsWithStr "VALIDATOR_" m || startsWithStr "age1" m || toolNameStart m

/-! ## Findings (classify in validate_secrets.py) -/

/-- A structured finding, as appended by `classify`. -/
structure Finding where
  rule_id : String
  severity : String
  message : String
  file : String
  tokenPrefix : String
deriving DecidableEq

/-- `token[:8] + "..."` (the redacted prefix stored in a finding). -/
def redactedOf (t : List Char) : String := (t.take 8).asString ++ "..."

/-- `classify(rule_id, severity, message, file, token)` builds the finding;
`token[:8] + "..." if token else ""` — both `None` and the empty string
are falsy in Python. -/
def classifyFinding (rid sev msg file : String) (token : Option (List Char)) :
    Finding :=
  { rule_id := rid, severity := sev, message := msg, file := file,
    tokenPrefix :=
      match token with
      | some t => if t.isEmpty then "" else redactedOf t
      | none => "" }

/-- Severity of an entropy finding:
`ENTROPY_FAIL_LEVEL if LEVEL_ORDER.get(ENTROPY_FAIL_LEVEL, 3) >= 3 else "MEDIUM"`. -/
def entropySeverity (entLevel : String) : String :=
  if 3 ≤ (LEVEL_ORDER entLevel).getD 3 then entLevel else "MEDIUM"

/-- Message of an entropy finding.  The source interpolates the entropy
value with float formatting (`entropy={ent:.2f}`) and wraps the token
prefix in quote characters; the numeric text and the quotes are not
modelled, the informative parts (path and redacted token) are. -/
def entMessage (rel : String) (m : List Char) : String :=
  "Potential secret (entropy) in " ++ rel ++ ": " ++ (m.take 8).asString ++ "..."

/-- The finding produced by the entropy branch of `scan_git_index`. -/
def mkEntropyFinding (entLevel rel : String) (m : List Char) : Finding :=
  classifyFinding "HIGH_ENTROPY_TOKEN" (entropySeverity entLevel)
    (entMessage rel m) rel (some m)

/-- Per-match body of the entropy loop of `scan_git_index`, with the float
comparison `ent >= ENTROPY_THRESHOLD` abstracted as `entGate m`. -/
def entropyFindingForMatch (entLevel : String) (entGate : List Char → Bool)
    (rel : String) (m : List Char) : Option Finding :=
  if m.length < 20 then none
  else if is_placeholder m then none
  else if is_adr_token m then none
  else if entGate m && !inSecretContainer rel then
    if pathFragment m then none
    else if startsWithStr "VALIDATOR_" m then none
    else if startsWithStr "age1" m then none
    else if toolNameStart m then none
    else some (mkEntropyFinding entLevel rel m)
  else none

/-- The entropy findings of one file scan, in match order. -/
def scanEntropyFindings (entLevel : String) (entGate : List Char → Bool)
    (rel : String) (text : List Char) : List Finding :=
  (findSecretTokens text).filterMap (entropyFindingForMatch entLevel entGate rel)

/-! ## Pattern rule set (PATTERN_DEFINITIONS) -/

/-- `[A-Za-z0-9_-]` (base64url-ish class of the JWT pattern). -/
def b64url (c : Char) : Bool := c.isAlphanum || c == '_' || c == '-'

/-- `[0-9A-Z]` / `[A-Z0-9]`. -/
def upperAlnum (c : Char) : Bool := c.isUpper || c.isDigit

/-- `AKIA[0-9A-Z]{16}` at the head of `l`: the 20-character match and the
remainder. -/
def tryAws (l : List Char) : Option (List Char × List Char) :=
  if startsWithStr "AKIA" l then
    let body := (l.drop 4).take 16
    if body.length == 16 && body.all upperAlnum then
      some (l.take 20, l.drop 20)
    else none
  else none

/-- `ghp_[A-Za-z0-9]{36}` at the head of `l`. -/
def tryGhp (l : List Char) : Option (List Char × List Char) :=
  if startsWithStr "ghp_" l then
    let body := (l.drop 4).take 36
    if body.length == 36 && body.all Char.isAlphanum then
      some (l.take 40, l.drop 40)
    else none
  else none

/-- `github_pat_[A-Za-z0-9_]{22,}` at the head of `l` (greedy run). -/
def tryGhpNew (l : List Char) : Option (List Char × List Char) :=
  if startsWithStr "github_pat_" l then
    let run := (l.drop 11).takeWhile (fun c => c.isAlphanum || c == '_')
    if 22 ≤ run.length then
      some (l.take (11 + run.length), l.drop (11 + run.length))
    else none
  else none

/-- `eyJ[A-Za-z0-9_-]{10,}\.[A-Za-z0-9_-]{10,}\.[A-Za-z0-9_-]{5,}` at the
head of `l`.  The character class excludes the dot, so the greedy runs are
exactly the maximal `b64url` runs and no backtracking arises. -/
def tryJwt (l : List Char) : Option (List Char × List Char) :=
  if startsWithStr "eyJ" l then
    let r1 := (l.drop 3).takeWhile b64url
    if 10 ≤ r1.length then
      match (l.drop 3).dropWhile b64url with
      | '.' :: l2 =>
        let r2 := l2.takeWhile b64url
        if 10 ≤ r2.length then
          match l2.dropWhile b64url with
          | '.' :: l3 =>
            let r3 := l3.takeWhile b64url
            if 5 ≤ r3.length then
              some (String.toList "eyJ" ++ r1 ++ '.' :: r2 ++ '.' :: r3,
                l3.drop r3.length)
            else none
          | _ => none
        else none
      | _ => none
    else none
  else none

/-- Python `re.findall` driver: at each position try a match; on success
emit it and resume after it, otherwise advance one character.  Fuel is the
initial text length (each step consumes at least one character). -/
def scanAll (tryM : List Char → Option (List Char × List Char)) :
    Nat → List Char → List (List Char)
  | 0, _ => []
  | _, [] => []
  | Nat.succ fuel, c :: cs =>
    match tryM (c :: cs) with
    | some (m, rest) => m :: scanAll tryM fuel rest
    | none => scanAll tryM fuel cs

/-- `pattern.findall(text)` for the unanchored patterns. -/
def findallPat (tryM : List Char → Option (List Char × List Char))
    (text : List Char) : List (List Char) :=
  scanAll tryM text.length text

/-- Without `re.MULTILINE`, `$` may also match just before one trailing
newline; this strips it. -/
def ageStrip (text : List Char) : List Char :=
  if text.getLast? == some '\n' then text.dropLast else text

/-- `^AGE-SECRET-KEY-[A-Z0-9]{59}$` without `re.MULTILINE`: `^` anchors at
the start of the whole text and `$` at its end (or just before one final
newline), so `findall` yields at most one match, covering the whole text. -/
def ageMatches (text : List Char) : List (List Char) :=
  if startsWithStr "AGE-SECRET-KEY-" (ageStrip text) &&
      ((ageStrip text).drop 15).length == 59 &&
      ((ageStrip text).drop 15).all upperAlnum then
    [ageStrip text]
  else []

/-- `PATTERN_DEFINITIONS`: rule id, severity, and the findall function of
the compiled pattern. -/
def PATTERN_DEFINITIONS :
    List (String × String × (List Char → List (List Char))) :=
  [("AWS_ACCESS_KEY", "HIGH", findallPat tryAws),
   ("GITHUB_PAT", "HIGH", findallPat tryGhp),
   ("GITHUB_PAT_NEW", "HIGH", findallPat tryGhpNew),
   ("JWT_TOKEN", "MEDIUM", findallPat tryJwt),
   ("AGE_PRIVATE_KEY", "CRITICAL", ageMatches)]

/-- `rel.endswith(s)` on strings. -/
def strEnds (suf rel : String) : Bool :=
  suf.toList.isSuffixOf rel.toList

/-- The explicit pattern scan loop of `scan_git_index`: every match of
every rule yields a finding, except AGE_PRIVATE_KEY matches inside a file
whose path ends in `age.key`. -/
def scanPatternFindings (rel : String) (text : List Char) : List Finding :=
  PATTERN_DEFINITIONS.flatMap (fun rd =>
    (rd.2.2 text).filterMap (fun m =>
      if rd.1 == "AGE_PRIVATE_KEY" && strEnds "age.key" rel then none
      else some (classifyFinding rd.1 rd.2.1 (rd.1 ++ " candidate in " ++ rel)
        rel (some m))))

/-! ## File classifier (per-file gates of scan_git_index) -/

/-- `p.name`: the path component after the last slash. -/
def baseNameChars (rel : String) : List Char :=
  ((rel.toList.reverse.takeWhile (fun c => !(c == '/'))).reverse)

/-- Index of the last dot of a name (Python `str.rfind`), if any. -/
def rfindDot (name : List Char) : Option Nat :=
  (List.range name.length).foldl
    (fun acc i => if name.get? i = some '.' then some i else acc) none

/-- `pathlib.PurePath.suffix`: the part of the name from its last dot,
empty when the dot is absent, leading, or trailing. -/
def pathlibSuffix (name : List Char) : List Char :=
  match rfindDot name with
  | none => []
  | some i => if 0 < i && i + 1 < name.length then name.drop i else []

/-- `candidate_ext = {"tf", "ps1", "py", "yml", "yaml", "json", "txt", "md"}`. -/
def candidateExt : List String :=
  ["tf", "ps1", "py", "yml", "yaml", "json", "txt", "md"]

/-- The per-file eligibility gates of `scan_git_index`: skip names ending
in `.json.encrypted`, skip `scripts/python/tests/`, and require
`p.suffix.lstrip(".")` to be a candidate extension. -/
def fileEligible (rel : String) : Bool :=
  let name := baseNameChars rel
  !strEnds ".json.encrypted" (String.mk name) &&
    !startsWithStr "scripts/python/tests/" rel.toList &&
    candidateExt.contains ((pathlibSuffix name).dropWhile (fun c => c == '.')).asString

/-- One tracked file of `scan_git_index`: nothing for an ineligible file,
else the entropy findings followed by the pattern findings. -/
def scanTrackedFile (entLevel : String) (entGate : List Char → Bool)
    (rel : String) (text : List Char) : List Finding :=
  if !fileEligible rel then []
  else scanEntropyFindings entLevel entGate rel text ++ scanPatternFindings rel text

/-! ## scan_plain_json and check_age_key -/

/-- `WHITELIST_PLAINTEXT_TEMPLATES`. -/
def WHITELIST_PLAINTEXT_TEMPLATES : List String :=
  ["infra/terraform/secrets/terraform.json",
   "infra/terraform/github/secrets/github-vars.json"]

/-- `scan_plain_json`, over the repo-relative (forward-slash) paths of the
`*.json` glob results in the secret-container directories.  It appends
message strings to `violations` and creates no `Finding`. -/
def scan_plain_json (jsonFiles : List String) : List String :=
  jsonFiles.filterMap (fun rel =>
    if strEnds ".json.encrypted" rel then none
    else if WHITELIST_PLAINTEXT_TEMPLATES.contains rel then none
    else some ("Plain JSON secret present: " ++ rel))

/-- Python substring containment `needle in hay`. -/
def hasSub (needle : List Char) : List Char → Bool
  | [] => needle.isEmpty
  | c :: t => needle.isPrefixOf (c :: t) || hasSub needle t

/-- `check_age_key`, over the existing `age.key` files of the
secret-container directories: repo-relative path, first line of the file
(empty when unreadable), and whether `git ls-files --error-unmatch`
reports the file as tracked.  It appends message strings to `violations`
and creates no `Finding`. -/
def check_age_key (ageKeys : List (String × String × Bool)) : List String :=
  ageKeys.filterMap (fun k =>
    if hasSub (String.toList "SECRET-KEY") k.2.1.toList then
      if k.2.2 then some ("age.key appears tracked: " ++ k.1) else none
    else none)

/-! ## Verdict block (__main__) -/

/-- The fold computing `highest` over the findings
(`if level > highest: highest = level`, starting from 0). -/
def highestRank (fs : List Finding) : Nat :=
  fs.foldl (fun h f => if h < levelRank0 f.severity then levelRank0 f.severity else h) 0

/-- One printed line ` - [SEVERITY] message`. -/
def findingLine (f : Finding) : String :=
  " - [" ++ f.severity ++ "] " ++ f.message

/-- The verdict block: console lines and process exit code, from the
findings list, the violations list and `FAIL_LEVEL`. -/
def verdictRun (fs : List Finding) (violations : List String)
    (failLevel : String) : List String × Nat :=
  let highest := highestRank fs
  let thr := failThreshold failLevel
  if thr ≤ highest then
    (("Secret validation FAILED (threshold " ++ failLevel ++ "):") ::
      (fs.filter (fun f => thr ≤ levelRank0 f.severity)).map findingLine, 1)
  else
    ((if !violations.isEmpty then "Secret validation WARNINGS:" :: fs.map findingLine
      else []) ++ ["Secret validation PASSED"], 0)

/-! ## Whole-run model (__main__ order: scan_plain_json, check_age_key,
scan_git_index, verdict) -/

/-- The external inputs of one validator run. -/
structure RunInput where
  jsonSecretFiles : List String
  ageKeys : List (String × String × Bool)
  trackedFiles : List (String × List Char)
deriving DecidableEq

/-- All findings of a run (only `scan_git_index` creates findings). -/
def runFindings (entLevel : String) (entGate : List Char → Bool)
    (inp : RunInput) : List Finding :=
  inp.trackedFiles.flatMap (fun ft => scanTrackedFile entLevel entGate ft.1 ft.2)

/-- All violation messages of a run, in append order. -/
def runViolations (entLevel : String) (entGate : List Char → Bool)
    (inp : RunInput) : List String :=
  scan_plain_json inp.jsonSecretFiles ++ check_age_key inp.ageKeys ++
    (runFindings entLevel entGate inp).map Finding.message

/-- One full run: console lines and exit code. -/
def runValidator (failLevel entLevel : String) (entGate : List Char → Bool)
    (inp : RunInput) : List String × Nat :=
  verdictRun (runFindings entLevel entGate inp)
    (runViolations entLevel entGate inp) failLevel

/-! ## Concrete fixtures used by witnesses and counterexamples -/

/-- A small eligible-file text containing one 20-character all-distinct
secret-charset run. -/
def wText : List Char := String.toList "see abcdefghijklmnopqrst ok"

/-- The single extracted token of `wText`. -/
def wTok : List Char := String.toList "abcdefghijklmnopqrst"

/-- A concrete HIGH finding. -/
def wFindingHigh : Finding :=
  { rule_id := "X", severity := "HIGH", message := "m", file := "f",
    tokenPrefix := "" }

/-- A concrete CRITICAL finding. -/
def wFindingCrit : Finding :=
  { rule_id := "X", severity := "CRITICAL", message := "m", file := "f",
    tokenPrefix := "" }

/-! ## Entropy lemmas -/

lemma length_cast_pos {s : List Char} (hs : s ≠ []) : (0 : ℝ) < (s.length : ℝ) := by
  have h : 0 < s.length := List.length_pos.mpr hs
  exact_mod_cast h

lemma p_pos {s : List Char} (hs : s ≠ []) {c : Char} (hc : c ∈ s.toFinset) :
    (0 : ℝ) < (s.count c : ℝ) / (s.length : ℝ) := by
  apply div_pos _ (length_cast_pos hs)
  exact_mod_cast List.count_pos_iff.mpr (List.mem_toFinset.mp hc)

lemma p_le_one {s : List Char} (hs : s ≠ []) (c : Char) :
    (s.count c : ℝ) / (s.length : ℝ) ≤ 1 := by
  rw [div_le_one (length_cast_pos hs)]
  exact_mod_cast List.count_le_length c s

lemma sum_counts_cast (s : List Char) :
    ∑ c ∈ s.toFinset, (s.count c : ℝ) = (s.length : ℝ) := by
  exact_mod_cast congrArg (fun n : ℕ => (n : ℝ)) (List.sum_toFinset_count_eq_length s)

lemma sum_p {s : List Char} (hs : s ≠ []) :
    ∑ c ∈ s.toFinset, (s.count c : ℝ) / (s.length : ℝ) = 1 := by
  rw [← Finset.sum_div, sum_counts_cast, div_self (ne_of_gt (length_cast_pos hs))]

lemma entropy_term_nonpos {s : List Char} (hs : s ≠ []) {c : Char}
    (hc : c ∈ s.toFinset) :
    ((s.count c : ℝ) / (s.length : ℝ)) *
      Real.logb 2 ((s.count c : ℝ) / (s.length : ℝ)) ≤ 0 :=
  mul_nonpos_of_nonneg_of_nonpos (le_of_lt (p_pos hs hc))
    (Real.logb_nonpos one_lt_two (le_of_lt (p_pos hs hc)) (p_le_one hs c))

lemma calc_entropy_nonneg (s : List Char) : 0 ≤ calc_entropy s := by
  by_cases hs : s = []
  · simp [calc_entropy, hs]
  · rw [calc_entropy, if_neg hs, neg_nonneg]
    exact Finset.sum_nonpos (fun c hc => entropy_term_nonpos hs hc)

/-- Gibbs inequality for a probability vector on a finite index set:
the entropy in bits is at most `logb 2` of the support size. -/
lemma gibbs_aux {α : Type} [DecidableEq α] (F : Finset α) (p : α → ℝ)
    (hF : F.Nonempty) (hpos : ∀ c ∈ F, 0 < p c)
    (hsum : ∑ c ∈ F, p c = 1) :
    -∑ c ∈ F, p c * Real.logb 2 (p c) ≤ Real.logb 2 (F.card : ℝ) := by
  have hkpos : (0 : ℝ) < (F.card : ℝ) := by
    exact_mod_cast Finset.card_pos.mpr hF
  have hlog2 : (0 : ℝ) < Real.log 2 := Real.log_pos one_lt_two
  have hsplit : ∀ c ∈ F, -(p c * Real.logb 2 (p c)) =
      p c * Real.logb 2 ((p c * (F.card : ℝ))⁻¹) +
        p c * Real.logb 2 (F.card : ℝ) := by
    intro c hc
    have hpc := hpos c hc
    have h1 : Real.logb 2 ((p c * (F.card : ℝ))⁻¹) =
        -(Real.logb 2 (p c)) - Real.logb 2 (F.card : ℝ) := by
      rw [Real.logb_inv, Real.logb_mul (ne_of_gt hpc) (ne_of_gt hkpos)]
      ring
    rw [h1]; ring
  have hA : ∑ c ∈ F, p c * Real.logb 2 ((p c * (F.card : ℝ))⁻¹) ≤ 0 := by
    have hstep : ∀ c ∈ F, p c * Real.logb 2 ((p c * (F.card : ℝ))⁻¹) ≤
        ((F.card : ℝ)⁻¹ - p c) / Real.log 2 := by
      intro c hc
      have hpc := hpos c hc
      have hy : (0 : ℝ) < (p c * (F.card : ℝ))⁻¹ :=
        inv_pos.mpr (mul_pos hpc hkpos)
      have hlog : Real.log ((p c * (F.card : ℝ))⁻¹) ≤
          (p c * (F.card : ℝ))⁻¹ - 1 := Real.log_le_sub_one_of_pos hy
      have hmul : p c * Real.log ((p c * (F.card : ℝ))⁻¹) ≤
          p c * ((p c * (F.card : ℝ))⁻¹ - 1) :=
        mul_le_mul_of_nonneg_left hlog (le_of_lt hpc)
      have hval : p c * ((p c * (F.card : ℝ))⁻¹ - 1) =
          (F.card : ℝ)⁻¹ - p c := by
        field_simp
        ring
      rw [Real.logb, ← mul_div_assoc]
      rw [div_le_div_iff_of_pos_right hlog2]
      calc p c * Real.log ((p c * (F.card : ℝ))⁻¹) ≤
            p c * ((p c * (F.card : ℝ))⁻¹ - 1) := hmul
        _ = (F.card : ℝ)⁻¹ - p c := hval
    calc ∑ c ∈ F, p c * Real.logb 2 ((p c * (F.card : ℝ))⁻¹) ≤
          ∑ c ∈ F, ((F.card : ℝ)⁻¹ - p c) / Real.log 2 :=
        Finset.sum_le_sum hstep
      _ = (∑ c ∈ F, ((F.card : ℝ)⁻¹ - p c)) / Real.log 2 := by
          rw [Finset.sum_div]
      _ = 0 := by
          rw [Finset.sum_sub_distrib, hsum, Finset.sum_const, nsmul_eq_mul,
            mul_inv_cancel₀ (ne_of_gt hkpos)]
          simp
  have hB : ∑ c ∈ F, p c * Real.logb 2 (F.card : ℝ) =
      Real.logb 2 (F.card : ℝ) := by
    rw [← Finset.sum_mul, hsum, one_mul]
  calc -∑ c ∈ F, p c * Real.logb 2 (p c)
      = ∑ c ∈ F, -(p c * Real.logb 2 (p c)) := by rw [Finset.sum_neg_distrib]
    _ = ∑ c ∈ F, (p c * Real.logb 2 ((p c * (F.card : ℝ))⁻¹) +
          p c * Real.logb 2 (F.card : ℝ)) := Finset.sum_congr rfl hsplit
    _ = (∑ c ∈ F, p c * Real.logb 2 ((p c * (F.card : ℝ))⁻¹)) +
          ∑ c ∈ F, p c * Real.logb 2 (F.card : ℝ) := Finset.sum_add_distrib
    _ ≤ 0 + Real.logb 2 (F.card : ℝ) := by
        exact add_le_add hA (le_of_eq hB)
    _ = Real.logb 2 (F.card : ℝ) := zero_add _

lemma calc_entropy_le_logb_card (s : List Char) :
    calc_entropy s ≤ Real.logb 2 (s.toFinset.card : ℝ) := by
  by_cases hs : s = []
  · simp [calc_entropy, hs, Real.logb]
  · rw [calc_entropy, if_neg hs]
    apply gibbs_aux s.toFinset _ _ (fun c hc => p_pos hs hc) (sum_p hs)
    exact (List.toFinset_nonempty_iff s).mpr hs

lemma logb_two_sixteen : Real.logb 2 (16 : ℝ) = 4 := by
  have h : (16 : ℝ) = 2 ^ (4 : ℕ) := by norm_num
  rw [h, Real.logb_pow, Real.logb_self_eq_one one_lt_two]
  norm_num

lemma calc_entropy_nodup {s : List Char} (hnd : s.Nodup) (hs : s ≠ []) :
    calc_entropy s = Real.logb 2 (s.length : ℝ) := by
  have hn := length_cast_pos hs
  rw [calc_entropy, if_neg hs]
  have hone : ∀ c ∈ s.toFinset,
      ((s.count c : ℝ) / (s.length : ℝ)) *
        Real.logb 2 ((s.count c : ℝ) / (s.length : ℝ)) =
      (1 / (s.length : ℝ)) * Real.logb 2 (1 / (s.length : ℝ)) := by
    intro c hc
    have h1 : (s.count c : ℝ) = 1 := by
      exact_mod_cast List.count_eq_one_of_mem hnd (List.mem_toFinset.mp hc)
    rw [h1]
  rw [Finset.sum_congr rfl hone, Finset.sum_const,
    List.toFinset_card_of_nodup hnd, nsmul_eq_mul]
  rw [one_div, Real.logb_inv]
  field_simp

/-! ## Scan-level lemmas -/

lemma entropyFindingForMatch_eq (entLevel : String) (gate : List Char → Bool)
    (rel : String) (m : List Char) (h20 : 20 ≤ m.length)
    (hcont : inSecretContainer rel = false) :
    entropyFindingForMatch entLevel gate rel m =
      if gate m && !suppressedMatch m then
        some (mkEntropyFinding entLevel rel m)
      else none := by
  unfold entropyFindingForMatch suppressedMatch
  rw [if_neg (by omega)]
  cases hp : is_placeholder m <;> cases ha : is_adr_token m <;>
    cases hg : gate m <;> cases hf : pathFragment m <;>
    cases hv : startsWithStr "VALIDATOR_" m <;>
    cases hag : startsWithStr "age1" m <;> cases ht : toolNameStart m <;>
    simp [hcont, hp, ha, hg, hf, hv, hag, ht]

lemma filterMap_eq_filter_map {α β : Type} (f : α → Option β) (p : α → Bool)
    (g : α → β) (l : List α)
    (h : ∀ a ∈ l, f a = if p a then some (g a) else none) :
    l.filterMap f = (l.filter p).map g := by
  induction l with
  | nil => rfl
  | cons a t ih =>
    have ha := h a (List.mem_cons_self a t)
    have ht := ih (fun x hx => h x (List.mem_cons_of_mem a hx))
    cases hp : p a <;>
      simp [List.filterMap_cons, List.filter_cons, ha, hp, ht]

lemma mem_findSecretTokens_length {text m : List Char}
    (hm : m ∈ findSecretTokens text) : 20 ≤ m.length := by
  have h := List.mem_filter.mp hm
  simpa using h.2

lemma scanEntropyFindings_eq (entLevel : String) (gate : List Char → Bool)
    (rel : String) (text : List Char) (hcont : inSecretContainer rel = false) :
    scanEntropyFindings entLevel gate rel text =
      ((findSecretTokens text).filter
        (fun m => gate m && !suppressedMatch m)).map
          (mkEntropyFinding entLevel rel) := by
  apply filterMap_eq_filter_map
  intro m hm
  exact entropyFindingForMatch_eq entLevel gate rel m
    (mem_findSecretTokens_length hm) hcont

lemma entropyFindingForMatch_some {entLevel : String} {gate : List Char → Bool}
    {rel : String} {m : List Char} {f : Finding}
    (h : entropyFindingForMatch entLevel gate rel m = some f) :
    f = mkEntropyFinding entLevel rel m := by
  unfold entropyFindingForMatch at h
  repeat split at h
  all_goals simp_all

lemma mem_scanEntropyFindings {entLevel : String} {gate : List Char → Bool}
    {rel : String} {text : List Char} {f : Finding}
    (hf : f ∈ scanEntropyFindings entLevel gate rel text) :
    ∃ m ∈ findSecretTokens text, f = mkEntropyFinding entLevel rel m := by
  rcases List.mem_filterMap.mp hf with ⟨m, hm, hfm⟩
  exact ⟨m, hm, entropyFindingForMatch_some hfm⟩

lemma mem_scanPatternFindings {rel : String} {text : List Char} {f : Finding}
    (hf : f ∈ scanPatternFindings rel text) :
    ∃ rd ∈ PATTERN_DEFINITIONS, ∃ m ∈ rd.2.2 text,
      f = classifyFinding rd.1 rd.2.1 (rd.1 ++ " candidate in " ++ rel) rel
        (some m) := by
  rcases List.mem_flatMap.mp hf with ⟨rd, hrd, hm⟩
  rcases List.mem_filterMap.mp hm with ⟨m, hmm, hsome⟩
  refine ⟨rd, hrd, m, hmm, ?_⟩
  split at hsome
  · cases hsome
  · exact (Option.some.inj hsome).symm

/-! Token length facts for the pattern matchers (every emitted match has
at least 20 characters). -/

lemma scanAll_length {tryM : List Char → Option (List Char × List Char)}
    (htry : ∀ l m rest, tryM l = some (m, rest) → 20 ≤ m.length) :
    ∀ fuel text m, m ∈ scanAll tryM fuel text → 20 ≤ m.length := by
  intro fuel
  induction fuel with
  | zero => intro text m hm; simp [scanAll] at hm
  | succ n ih =>
    intro text m hm
    cases text with
    | nil => simp [scanAll] at hm
    | cons c cs =>
      rw [scanAll] at hm
      cases htm : tryM (c :: cs) with
      | none =>
        rw [htm] at hm
        exact ih cs m hm
      | some pr =>
        rw [htm] at hm
        rcases List.mem_cons.mp hm with h | h
        · subst h
          exact htry (c :: cs) pr.1 pr.2 (by rw [htm])
        · exact ih pr.2 m h

lemma tryAws_length : ∀ l m rest, tryAws l = some (m, rest) → 20 ≤ m.length := by
  intro l m rest h
  simp only [tryAws] at h
  repeat' split at h
  all_goals cases h
  rename_i hpre hbody
  simp only [Bool.and_eq_true, beq_iff_eq, List.length_take,
    List.length_drop] at hbody
  simp only [List.length_take]
  omega

lemma tryGhp_length : ∀ l m rest, tryGhp l = some (m, rest) → 20 ≤ m.length := by
  intro l m rest h
  simp only [tryGhp] at h
  repeat' split at h
  all_goals cases h
  rename_i hpre hbody
  simp only [Bool.and_eq_true, beq_iff_eq, List.length_take,
    List.length_drop] at hbody
  simp only [List.length_take]
  omega

lemma tryGhpNew_length :
    ∀ l m rest, tryGhpNew l = some (m, rest) → 20 ≤ m.length := by
  intro l m rest h
  simp only [tryGhpNew] at h
  repeat' split at h
  all_goals cases h
  rename_i hpre hrun
  have hr : ((l.drop 11).takeWhile
      (fun c => c.isAlphanum || c == '_')).length ≤ l.length - 11 := by
    have hs := List.Sublist.length_le
      (List.takeWhile_sublist (fun c : Char => c.isAlphanum || c == '_')
        (l := l.drop 11))
    simpa using hs
  simp only [List.length_take]
  omega

lemma tryJwt_length : ∀ l m rest, tryJwt l = some (m, rest) → 20 ≤ m.length := by
  intro l m rest h
  simp only [tryJwt] at h
  repeat' split at h
  all_goals cases h
  rename_i hpre hr1 heq2 hr2 heq3 hr3
  have h3 : (String.toList "eyJ").length = 3 := rfl
  simp only [List.length_append, List.length_cons, h3]
  omega

lemma ageMatches_length {text m : List Char} (hm : m ∈ ageMatches text) :
    20 ≤ m.length := by
  simp only [ageMatches] at hm
  split at hm
  · rename_i hcond
    rw [List.mem_singleton] at hm
    subst hm
    simp only [Bool.and_eq_true, beq_iff_eq, List.length_drop] at hcond
    omega
  · cases hm

lemma pattern_token_length {rd : String × String × (List Char → List (List Char))}
    (hrd : rd ∈ PATTERN_DEFINITIONS) {text m : List Char}
    (hm : m ∈ rd.2.2 text) : 20 ≤ m.length := by
  simp only [PATTERN_DEFINITIONS, List.mem_cons, List.not_mem_nil,
    or_false] at hrd
  rcases hrd with h | h | h | h | h <;> subst h <;>
    simp only [findallPat] at hm
  · exact scanAll_length tryAws_length text.length text m hm
  · exact scanAll_length tryGhp_length text.length text m hm
  · exact scanAll_length tryGhpNew_length text.length text m hm
  · exact scanAll_length tryJwt_length text.length text m hm
  · exact ageMatches_length hm

/-! ## Claim C5: entropy is zero exactly on trivial strings -/

/-- C5: for every string `s`, `calc_entropy s` equals `0.0` if and only if
`s` is empty or every character of `s` is identical; in particular the
empty string yields `0.0` with no error (the function is total). -/
theorem calc_entropy_zero_iff :
    calc_entropy [] = 0 ∧
    ∀ s : List Char,
      (calc_entropy s = 0 ↔ s = [] ∨ ∀ a ∈ s, ∀ b ∈ s, a = b) := by
  refine ⟨by simp [calc_entropy], fun s => ?_⟩
  by_cases hs : s = []
  · simp [calc_entropy, hs]
  · rw [calc_entropy, if_neg hs, neg_eq_zero,
      Finset.sum_eq_zero_iff_of_nonpos (fun c hc => entropy_term_nonpos hs hc)]
    constructor
    · intro h
      refine Or.inr (fun a ha b hb => ?_)
      have ha' : a ∈ s.toFinset := List.mem_toFinset.mpr ha
      have hterm := h a ha'
      have hppos := p_pos hs ha'
      have hlogzero : Real.logb 2 ((s.count a : ℝ) / (s.length : ℝ)) = 0 := by
        rcases mul_eq_zero.mp hterm with h1 | h1
        · exact absurd h1 (ne_of_gt hppos)
        · exact h1
      have hpone : (s.count a : ℝ) / (s.length : ℝ) = 1 := by
        by_contra hne
        rcases lt_or_gt_of_ne hne with hlt | hgt
        · exact absurd hlogzero (ne_of_lt (Real.logb_neg one_lt_two hppos hlt))
        · exact absurd hlogzero (ne_of_gt (Real.logb_pos one_lt_two hgt))
      have hcount : (s.count a : ℝ) = (s.length : ℝ) :=
        (div_eq_one_iff_eq (ne_of_gt (length_cast_pos hs))).mp hpone
      have hcn : List.count a s = s.length := by exact_mod_cast hcount
      exact List.count_eq_length.mp hcn b hb
    · intro h c hc
      rcases h with h | h
      · exact absurd h hs
      · have hc' := List.mem_toFinset.mp hc
        have hcn : List.count c s = s.length :=
          List.count_eq_length.mpr (fun b hb => h c hc' b hb)
        have hpone : (s.count c : ℝ) / (s.length : ℝ) = 1 := by
          rw [hcn]
          exact div_self (ne_of_gt (length_cast_pos hs))
        rw [hpone, Real.logb_one, mul_zero]

/-- Witness for C5: the all-identical string "aa" evaluates to entropy 0
through the right-to-left direction of the theorem. -/
theorem calc_entropy_zero_iff_witness : calc_entropy (String.toList "aa") = 0 :=
  (calc_entropy_zero_iff.2 (String.toList "aa")).mpr (Or.inr (by decide))

/-! ## Claim C10: entropy bounds -/

/-- C10: `calc_entropy` is non-negative and bounded by `logb 2` of the
number of distinct characters (hence by `logb 2` of the length for
non-empty strings); consequently a token with fewer than 16 distinct
characters has entropy strictly below the default threshold 4.0, so at
least 16 distinct characters are needed to reach it. -/
theorem calc_entropy_bounds (s : List Char) :
    0 ≤ calc_entropy s ∧
    calc_entropy s ≤ Real.logb 2 (s.toFinset.card : ℝ) ∧
    (s ≠ [] → calc_entropy s ≤ Real.logb 2 (s.length : ℝ)) ∧
    (s.toFinset.card < 16 → calc_entropy s < 4) := by
  refine ⟨calc_entropy_nonneg s, calc_entropy_le_logb_card s, ?_, ?_⟩
  · intro hs
    have h1 : (0 : ℝ) < (s.toFinset.card : ℝ) := by
      exact_mod_cast Finset.card_pos.mpr ((List.toFinset_nonempty_iff s).mpr hs)
    exact le_trans (calc_entropy_le_logb_card s)
      (Real.logb_le_logb_of_le one_lt_two h1
        (by exact_mod_cast List.toFinset_card_le s))
  · intro hcard
    by_cases hs : s = []
    · have h0 : calc_entropy s = 0 := by simp [calc_entropy, hs]
      rw [h0]; norm_num
    · have h1 : (0 : ℝ) < (s.toFinset.card : ℝ) := by
        exact_mod_cast Finset.card_pos.mpr ((List.toFinset_nonempty_iff s).mpr hs)
      have h15 : (s.toFinset.card : ℝ) ≤ 15 := by
        exact_mod_cast Nat.lt_succ_iff.mp hcard
      calc calc_entropy s ≤ Real.logb 2 (s.toFinset.card : ℝ) :=
            calc_entropy_le_logb_card s
        _ ≤ Real.logb 2 (15 : ℝ) := Real.logb_le_logb_of_le one_lt_two h1 h15
        _ < Real.logb 2 (16 : ℝ) :=
            Real.logb_lt_logb one_lt_two (by norm_num) (by norm_num)
        _ = 4 := logb_two_sixteen

/-- Witness for C10 at the concrete string "aab" (2 distinct characters):
both hypotheses are discharged by evaluation. -/
theorem calc_entropy_bounds_witness :
    (String.toList "aab" ≠ [] ∧ (String.toList "aab").toFinset.card < 16) ∧
    0 ≤ calc_entropy (String.toList "aab") ∧
    calc_entropy (String.toList "aab") ≤
      Real.logb 2 (((String.toList "aab").toFinset.card : ℕ) : ℝ) ∧
    calc_entropy (String.toList "aab") ≤
      Real.logb 2 (((String.toList "aab").length : ℕ) : ℝ) ∧
    calc_entropy (String.toList "aab") < 4 := by
  have h := calc_entropy_bounds (String.toList "aab")
  exact ⟨⟨by decide, by decide⟩, h.1, h.2.1, h.2.2.1 (by decide),
    h.2.2.2 (by decide)⟩

/-! ## Claim C1: exactly one HIGH entropy finding per qualifying match -/

lemma findSecretTokens_wText : findSecretTokens wText = [wTok] := by decide

lemma wTok_entropy : (4 : ℝ) ≤ calc_entropy wTok := by
  have hnd : wTok.Nodup := by decide
  have hne : wTok ≠ [] := by decide
  rw [calc_entropy_nodup hnd hne,
    show ((wTok.length : ℕ) : ℝ) = (20 : ℝ) from by
      norm_num [show wTok.length = 20 from rfl]]
  calc (4 : ℝ) = Real.logb 2 (16 : ℝ) := logb_two_sixteen.symm
    _ ≤ Real.logb 2 (20 : ℝ) :=
        Real.logb_le_logb_of_le one_lt_two (by norm_num) (by norm_num)

lemma wGate_spec : ∀ m ∈ findSecretTokens wText,
    ((fun _ : List Char => true) m = true ↔ (4 : ℝ) ≤ calc_entropy m) := by
  intro m hm
  rw [findSecretTokens_wText, List.mem_singleton] at hm
  subst hm
  exact ⟨fun _ => wTok_entropy, fun _ => rfl⟩

/-- C1: on an eligible tracked file outside the secret-container
directories, when the boolean entropy gate agrees with
`calc_entropy ≥ 4.0` on every extracted match (the default configuration),
the HIGH_ENTROPY_TOKEN findings of the scan are exactly one finding per
matched substring that passes the gate and no suppression, each with
severity HIGH. -/
theorem entropy_scan_one_high_per_qualifying_token
    (gate : List Char → Bool) (rel : String) (text : List Char)
    (helig : fileEligible rel = true)
    (hcont : inSecretContainer rel = false)
    (hgate : ∀ m ∈ findSecretTokens text,
      (gate m = true ↔ (4 : ℝ) ≤ calc_entropy m)) :
    (scanTrackedFile "HIGH" gate rel text).filter
        (fun f => f.rule_id == "HIGH_ENTROPY_TOKEN") =
      ((findSecretTokens text).filter
        (fun m => gate m && !suppressedMatch m)).map
          (mkEntropyFinding "HIGH" rel) ∧
    (∀ m ∈ findSecretTokens text,
      ((gate m && !suppressedMatch m) = true ↔
        ((4 : ℝ) ≤ calc_entropy m ∧ suppressedMatch m = false))) ∧
    (∀ m : List Char, (mkEntropyFinding "HIGH" rel m).severity = "HIGH") := by
  refine ⟨?_, ?_, fun m => rfl⟩
  · have hel : scanTrackedFile "HIGH" gate rel text =
        scanEntropyFindings "HIGH" gate rel text ++
          scanPatternFindings rel text := by
      simp [scanTrackedFile, helig]
    rw [hel, List.filter_append]
    have hent : (scanEntropyFindings "HIGH" gate rel text).filter
        (fun f => f.rule_id == "HIGH_ENTROPY_TOKEN") =
        scanEntropyFindings "HIGH" gate rel text := by
      rw [List.filter_eq_self]
      intro f hf
      rcases mem_scanEntropyFindings hf with ⟨m, hm, rfl⟩
      rfl
    have hpat : (scanPatternFindings rel text).filter
        (fun f => f.rule_id == "HIGH_ENTROPY_TOKEN") = [] := by
      rw [List.filter_eq_nil_iff]
      intro f hf
      rcases mem_scanPatternFindings hf with ⟨rd, hrd, m, hm, rfl⟩
      simp only [PATTERN_DEFINITIONS, List.mem_cons, List.not_mem_nil,
        or_false] at hrd
      rcases hrd with h | h | h | h | h <;> subst h <;> simp [classifyFinding]
    rw [hent, hpat, List.append_nil]
    exact scanEntropyFindings_eq "HIGH" gate rel text hcont
  · intro m hm
    simp [Bool.and_eq_true, Bool.not_eq_true', hgate m hm]

/-- Witness for C1: the file `docs/note.md` with text `wText`, whose sole
extracted token has provably high entropy; all hypotheses discharged. -/
theorem entropy_scan_one_high_per_qualifying_token_witness :
    fileEligible "docs/note.md" = true ∧
    inSecretContainer "docs/note.md" = false ∧
    ((scanTrackedFile "HIGH" (fun _ => true) "docs/note.md" wText).filter
        (fun f => f.rule_id == "HIGH_ENTROPY_TOKEN") =
      ((findSecretTokens wText).filter
        (fun m => (fun _ : List Char => true) m && !suppressedMatch m)).map
          (mkEntropyFinding "HIGH" "docs/note.md") ∧
    (∀ m ∈ findSecretTokens wText,
      (((fun _ : List Char => true) m && !suppressedMatch m) = true ↔
        ((4 : ℝ) ≤ calc_entropy m ∧ suppressedMatch m = false))) ∧
    (∀ m : List Char,
      (mkEntropyFinding "HIGH" "docs/note.md" m).severity = "HIGH")) :=
  ⟨by decide, by decide,
    entropy_scan_one_high_per_qualifying_token (fun _ => true) "docs/note.md"
      wText (by decide) (by decide) wGate_spec⟩

/-! ## Claim C8: placeholders never yield an entropy finding -/

/-- C8: a candidate match that is entirely a placeholder
(angle-bracket-delimited, or a case-insensitive match of one of the seven
placeholder words) produces no entropy finding, whatever the entropy gate
says about it. -/
theorem placeholder_never_entropy_finding
    (entLevel : String) (gate : List Char → Bool) (rel : String)
    (m : List Char) (h : is_placeholder m = true) :
    entropyFindingForMatch entLevel gate rel m = none := by
  unfold entropyFindingForMatch
  by_cases h20 : m.length < 20
  · rw [if_pos h20]
  · rw [if_neg h20, if_pos h]

/-- Witness for C8 at the placeholder `<API_KEY>` with an entropy gate
that always fires. -/
theorem placeholder_never_entropy_finding_witness :
    is_placeholder (String.toList "<API_KEY>") = true ∧
    entropyFindingForMatch "HIGH" (fun _ => true) "docs/note.md"
      (String.toList "<API_KEY>") = none :=
  ⟨by decide,
    placeholder_never_entropy_finding "HIGH" (fun _ => true) "docs/note.md"
      (String.toList "<API_KEY>") (by decide)⟩

/-! ## Claim C9: the stored token prefix never reveals the full match -/

lemma redactedOf_toList (t : List Char) :
    (redactedOf t).toList = t.take 8 ++ ['.', '.', '.'] := rfl

lemma token_not_in_redacted {t : List Char} (h : 20 ≤ t.length) :
    ¬ List.IsInfix t (redactedOf t).toList := by
  intro hinf
  have hl := hinf.length_le
  rw [redactedOf_toList] at hl
  simp only [List.length_append, List.length_take, List.length_cons,
    List.length_nil] at hl
  omega

lemma tokenPrefix_of_some {rid sev msg file : String} {m : List Char}
    (h : 20 ≤ m.length) :
    (classifyFinding rid sev msg file (some m)).tokenPrefix = redactedOf m := by
  cases m with
  | nil => simp at h
  | cons c t => rfl

/-- C9: every finding produced by scanning a tracked file stores as
`tokenPrefix` the first at most 8 characters of its matched token followed
by the ellipsis marker, and the full matched token (always at least 20
characters here) is never contained in that prefix. -/
theorem finding_token_redacted
    (entLevel : String) (gate : List Char → Bool) (rel : String)
    (text : List Char) :
    ∀ f ∈ scanTrackedFile entLevel gate rel text,
      ∃ t : List Char, 20 ≤ t.length ∧ f.tokenPrefix = redactedOf t ∧
        ¬ List.IsInfix t (f.tokenPrefix).toList := by
  intro f hf
  unfold scanTrackedFile at hf
  split at hf
  · cases hf
  · rcases List.mem_append.mp hf with hf | hf
    · rcases mem_scanEntropyFindings hf with ⟨m, hm, rfl⟩
      have h20 := mem_findSecretTokens_length hm
      have hpre : (mkEntropyFinding entLevel rel m).tokenPrefix =
          redactedOf m := tokenPrefix_of_some h20
      refine ⟨m, h20, hpre, ?_⟩
      rw [hpre]
      exact token_not_in_redacted h20
    · rcases mem_scanPatternFindings hf with ⟨rd, hrd, m, hm, rfl⟩
      have h20 := pattern_token_length hrd hm
      have hpre : (classifyFinding rd.1 rd.2.1
          (rd.1 ++ " candidate in " ++ rel) rel (some m)).tokenPrefix =
          redactedOf m := tokenPrefix_of_some h20
      refine ⟨m, h20, hpre, ?_⟩
      rw [hpre]
      exact token_not_in_redacted h20

/-- Witness for C9 at the concrete entropy finding of `wText`. -/
theorem finding_token_redacted_witness :
    ∃ t : List Char, 20 ≤ t.length ∧
      (mkEntropyFinding "HIGH" "docs/note.md" wTok).tokenPrefix =
        redactedOf t ∧
      ¬ List.IsInfix t
        ((mkEntropyFinding "HIGH" "docs/note.md" wTok).tokenPrefix).toList :=
  finding_token_redacted "HIGH" (fun _ => true) "docs/note.md" wText
    (mkEntropyFinding "HIGH" "docs/note.md" wTok) (by decide)

/-! ## Verdict lemmas (claims C3, C4) -/

lemma foldl_rank_le_iff (fs : List Finding) :
    ∀ (a t : Nat),
      (t ≤ fs.foldl (fun h f =>
          if h < levelRank0 f.severity then levelRank0 f.severity else h) a ↔
        t ≤ a ∨ ∃ f ∈ fs, t ≤ levelRank0 f.severity) := by
  induction fs with
  | nil => intro a t; simp
  | cons f fsTail ih =>
    intro a t
    rw [List.foldl_cons, ih]
    have hmax : (if a < levelRank0 f.severity then levelRank0 f.severity
        else a) = max a (levelRank0 f.severity) := by
      split <;> omega
    rw [hmax, le_max_iff]
    simp only [List.mem_cons]
    constructor
    · rintro ((h | h) | ⟨g, hg, h⟩)
      · exact Or.inl h
      · exact Or.inr ⟨f, Or.inl rfl, h⟩
      · exact Or.inr ⟨g, Or.inr hg, h⟩
    · rintro (h | ⟨g, (rfl | hg), h⟩)
      · exact Or.inl (Or.inl h)
      · exact Or.inl (Or.inr h)
      · exact Or.inr ⟨g, hg, h⟩

lemma failThreshold_pos (lvl : String) : 1 ≤ failThreshold lvl := by
  unfold failThreshold LEVEL_ORDER
  repeat' split
  all_goals decide

lemma threshold_le_highestRank_iff (fs : List Finding) (lvl : String) :
    failThreshold lvl ≤ highestRank fs ↔
      ∃ f ∈ fs, failThreshold lvl ≤ levelRank0 f.severity := by
  unfold highestRank
  rw [foldl_rank_le_iff]
  have h1 := failThreshold_pos lvl
  constructor
  · rintro (h | h)
    · omega
    · exact h
  · exact Or.inr

/-- C3: the verdict block exits with code 1, printing the FAILED header
followed by exactly the findings whose severity rank is at or above the
configured threshold, if and only if some finding reaches the threshold
(i.e. the maximum severity rank does); otherwise it exits 0 and its last
console line is "Secret validation PASSED". -/
theorem verdict_engine_spec (fs : List Finding) (vio : List String)
    (lvl : String) :
    ((verdictRun fs vio lvl).2 = 1 ↔
      ∃ f ∈ fs, failThreshold lvl ≤ levelRank0 f.severity) ∧
    ((verdictRun fs vio lvl).2 = 1 →
      (verdictRun fs vio lvl).1 =
        ("Secret validation FAILED (threshold " ++ lvl ++ "):") ::
          (fs.filter
            (fun f => failThreshold lvl ≤ levelRank0 f.severity)).map
              findingLine) ∧
    ((verdictRun fs vio lvl).2 ≠ 1 →
      (verdictRun fs vio lvl).2 = 0 ∧
      (verdictRun fs vio lvl).1.getLast? =
        some "Secret validation PASSED") := by
  by_cases hc : failThreshold lvl ≤ highestRank fs
  · have h2 : (verdictRun fs vio lvl).2 = 1 := by simp [verdictRun, hc]
    have h1 : (verdictRun fs vio lvl).1 =
        ("Secret validation FAILED (threshold " ++ lvl ++ "):") ::
          (fs.filter
            (fun f => failThreshold lvl ≤ levelRank0 f.severity)).map
              findingLine := by
      simp [verdictRun, hc]
    refine ⟨⟨fun _ => (threshold_le_highestRank_iff fs lvl).mp hc,
      fun _ => h2⟩, fun _ => h1, fun hne => absurd h2 hne⟩
  · have h2 : (verdictRun fs vio lvl).2 = 0 := by simp [verdictRun, hc]
    have h1 : (verdictRun fs vio lvl).1 =
        (if !vio.isEmpty then
          "Secret validation WARNINGS:" :: fs.map findingLine else []) ++
          ["Secret validation PASSED"] := by
      simp [verdictRun, hc]
    refine ⟨⟨fun hx => absurd (h2.symm.trans hx) (by omega), fun hex => ?_⟩,
      fun hx => absurd (h2.symm.trans hx) (by omega),
      fun _ => ⟨h2, ?_⟩⟩
    · exact absurd ((threshold_le_highestRank_iff fs lvl).mpr hex) hc
    · rw [h1, List.getLast?_concat]

/-- Witness for C3: a single HIGH finding fails with the detailed listing;
the empty findings list passes, ending with the PASSED line. -/
theorem verdict_engine_spec_witness :
    (verdictRun [wFindingHigh] [] "HIGH").1 =
      ["Secret validation FAILED (threshold HIGH):", " - [HIGH] m"] ∧
    ((verdictRun [] [] "HIGH").2 = 0 ∧
      (verdictRun [] [] "HIGH").1.getLast? =
        some "Secret validation PASSED") := by
  have hA := (verdict_engine_spec [wFindingHigh] [] "HIGH").2.1 (by decide)
  have hB := (verdict_engine_spec [] [] "HIGH").2.2 (by decide)
  exact ⟨hA.trans (by decide), hB⟩

/-- C4: raising the fail threshold from HIGH to CRITICAL never turns a
pass into a fail; it can only turn a fail into a pass. -/
theorem threshold_raise_monotone (fs : List Finding) (vio : List String) :
    ((verdictRun fs vio "HIGH").2 = 0 → (verdictRun fs vio "CRITICAL").2 = 0) ∧
    ((verdictRun fs vio "CRITICAL").2 = 1 →
      (verdictRun fs vio "HIGH").2 = 1) := by
  have hHC : failThreshold "HIGH" ≤ failThreshold "CRITICAL" := by decide
  have hexit : ∀ lvl, (verdictRun fs vio lvl).2 =
      if failThreshold lvl ≤ highestRank fs then 1 else 0 := by
    intro lvl
    by_cases hc : failThreshold lvl ≤ highestRank fs <;> simp [verdictRun, hc]
  constructor
  · intro h0
    rw [hexit] at h0 ⊢
    by_cases hc : failThreshold "CRITICAL" ≤ highestRank fs
    · rw [if_pos (le_trans hHC hc)] at h0
      exact absurd h0 (by omega)
    · rw [if_neg hc]
  · intro h1
    rw [hexit] at h1 ⊢
    by_cases hc : failThreshold "CRITICAL" ≤ highestRank fs
    · rw [if_pos (le_trans hHC hc)]
    · rw [if_neg hc] at h1
      exact absurd h1 (by omega)

/-- Witness for C4: a passing list stays passing after the raise, and a
CRITICAL finding that fails at CRITICAL also fails at HIGH. -/
theorem threshold_raise_monotone_witness :
    ((verdictRun ([] : List Finding) [] "HIGH").2 = 0 ∧
      (verdictRun ([] : List Finding) [] "CRITICAL").2 = 0) ∧
    ((verdictRun [wFindingCrit] [] "CRITICAL").2 = 1 ∧
      (verdictRun [wFindingCrit] [] "HIGH").2 = 1) :=
  ⟨⟨by decide, (threshold_raise_monotone [] []).1 (by decide)⟩,
    ⟨by decide, (threshold_raise_monotone [wFindingCrit] []).2 (by decide)⟩⟩

/-! ## Claim C6 (corrected): severity of entropy findings -/

/-- Counterexample to C6 as stated: with `ENTROPY_FAIL_LEVEL = "LOW"`
(a valid configured severity) and an entropy gate that agrees with
`calc_entropy ≥ 4.0` on every candidate of `wText`, the scan emits an
entropy finding whose severity is MEDIUM, not the configured LOW. -/
theorem entropy_level_low_gives_medium :
    (∀ m ∈ findSecretTokens wText,
      ((fun _ : List Char => true) m = true ↔ (4 : ℝ) ≤ calc_entropy m)) ∧
    (scanTrackedFile "LOW" (fun _ => true) "docs/note.md" wText).map
        Finding.severity = ["MEDIUM"] ∧
    ("MEDIUM" : String) ≠ "LOW" :=
  ⟨wGate_spec, by decide, by decide⟩

/-- C6 amended: entropy findings carry exactly the configured
`ENTROPY_FAIL_LEVEL` when it is CRITICAL, HIGH or MEDIUM (HIGH being the
default); when LOW is configured they carry MEDIUM instead. -/
theorem entropy_severity_assignment (entLevel : String)
    (h : entLevel = "CRITICAL" ∨ entLevel = "HIGH" ∨ entLevel = "MEDIUM")
    (gate : List Char → Bool) (rel : String) (text : List Char) :
    (∀ f ∈ scanEntropyFindings entLevel gate rel text,
      f.severity = entLevel) ∧
    (∀ f ∈ scanEntropyFindings "LOW" gate rel text,
      f.severity = "MEDIUM") := by
  constructor
  · intro f hf
    rcases mem_scanEntropyFindings hf with ⟨m, hm, rfl⟩
    rcases h with h | h | h <;> subst h <;> rfl
  · intro f hf
    rcases mem_scanEntropyFindings hf with ⟨m, hm, rfl⟩
    rfl

/-- Witness for C6 at the valid configured level MEDIUM. -/
theorem entropy_severity_assignment_witness :
    (("MEDIUM" : String) = "CRITICAL" ∨ ("MEDIUM" : String) = "HIGH" ∨
      ("MEDIUM" : String) = "MEDIUM") ∧
    (∀ f ∈ scanEntropyFindings "MEDIUM" (fun _ => true) "docs/note.md" wText,
      f.severity = "MEDIUM") ∧
    (∀ f ∈ scanEntropyFindings "LOW" (fun _ => true) "docs/note.md" wText,
      f.severity = "MEDIUM") :=
  ⟨Or.inr (Or.inr rfl),
    (entropy_severity_assignment "MEDIUM" (Or.inr (Or.inr rfl))
      (fun _ => true) "docs/note.md" wText).1,
    (entropy_severity_assignment "MEDIUM" (Or.inr (Or.inr rfl))
      (fun _ => true) "docs/note.md" wText).2⟩

/-! ## Claim C2 (code bug): plain JSON in a secret container -/

/-- C2 evidence: the allowlisted template produces no violation, a
different plaintext JSON file in the secret container produces a violation
message — but `scan_plain_json` creates no `Finding`, the verdict reads
only `findings`, and the full run prints PASSED (after a WARNINGS block)
and exits 0, so the violation never contributes to the fail verdict. -/
theorem plain_json_violation_not_in_verdict :
    scan_plain_json ["infra/terraform/secrets/terraform.json"] = [] ∧
    scan_plain_json ["infra/terraform/secrets/other.json"] =
      ["Plain JSON secret present: infra/terraform/secrets/other.json"] ∧
    runFindings "HIGH" (fun _ => false)
      { jsonSecretFiles := ["infra/terraform/secrets/other.json"],
        ageKeys := [], trackedFiles := [] } = [] ∧
    runValidator "HIGH" "HIGH" (fun _ => false)
      { jsonSecretFiles := ["infra/terraform/secrets/other.json"],
        ageKeys := [], trackedFiles := [] } =
      (["Secret validation WARNINGS:", "Secret validation PASSED"], 0) := by
  refine ⟨by decide, by decide, by decide, by decide⟩

/-! ## Claim C7 (code bug): tracked age.key -/

/-- C7 evidence: an untracked `age.key` yields nothing, and a tracked one
yields a violation message — but `check_age_key` creates no `Finding`, so
the run still prints PASSED and exits 0: the violation never participates
in the severity-based fail decision. -/
theorem age_key_tracked_not_in_verdict :
    check_age_key
        [("infra/terraform/secrets/age.key", "AGE-SECRET-KEY-1ABC", true)] =
      ["age.key appears tracked: infra/terraform/secrets/age.key"] ∧
    check_age_key
        [("infra/terraform/secrets/age.key", "AGE-SECRET-KEY-1ABC", false)] =
      [] ∧
    runValidator "HIGH" "HIGH" (fun _ => false)
      { jsonSecretFiles := [],
        ageKeys :=
          [("infra/terraform/secrets/age.key", "AGE-SECRET-KEY-1ABC", true)],
        trackedFiles := [] } =
      (["Secret validation WARNINGS:", "Secret validation PASSED"], 0) := by
  refine ⟨by decide, by decide, by decide⟩

end SecretValidator
